import Mathlib

/-!
# A shallow embedding of the solarcell sweep scripts

This file embeds the sweep logic of the two sweep scripts of the repository,
`rigol_iv_curve.py` (a voltage-derived resistance sweep) and
`rigol_optimize_power.py` (a direct resistance sweep), and proves the
claims of the spec about them.

Instrument values are modelled as exact rationals (`ℚ`).  The instrument
itself is modelled as an oracle `Nat → StepResult` giving, for each sweep
iteration, either a measured `(voltage, current)` pair, a communication
failure (an uncaught pyvisa exception), or an operator interrupt
(`KeyboardInterrupt`).  Each sweep returns the trace of instrument
commands it issued (setpoint writes and the final `:INPUT OFF`), the
record of appended measurements, and the way the loop exited.
-/

/-! ## Configuration constants of `rigol_iv_curve.py` (lines 11-21) -/

def V_START : ℚ := 0

def V_STOP : ℚ := 10

def V_STEP : ℚ := 1/10

def ESTIMATED_CURRENT : ℚ := 5

def MAX_CURRENT : ℚ := 20

def MAX_POWER : ℚ := 50

def MIN_RESISTANCE : ℚ := 2/25

def MAX_RESISTANCE : ℚ := 15000

/-! ## Configuration constants of `rigol_optimize_power.py` (lines 11-13) -/

def R_START : ℚ := 15000

def R_STOP : ℚ := 1/20

def R_STEP : ℚ := -100

/-! ## Data model -/

/-- A recorded sweep sample: measured voltage and current, and the derived
power (`power = voltage * current` in both scripts). -/
structure Measurement where
  volt : ℚ
  curr : ℚ
  pow : ℚ
  deriving DecidableEq, Repr

/-- The outcome of one sweep iteration, supplied by the instrument oracle:
a successful measurement, a communication failure (pyvisa exception), or a
`KeyboardInterrupt`. -/
inductive StepResult where
  | ok (V I : ℚ) : StepResult
  | commError : StepResult
  | interrupt : StepResult
  deriving DecidableEq, Repr

/-- How the sweep loop exited. -/
inductive ExitKind where
  | completed : ExitKind
  | stoppedByLimit (reason : String) : ExitKind
  | interrupted : ExitKind
  | failed : ExitKind
  deriving DecidableEq, Repr

/-- Instrument commands traced by the embedding: a `:RES r` setpoint write
and the `:INPUT OFF` issued by the `finally` block of each script. -/
inductive Cmd where
  | res (r : ℚ) : Cmd
  | inputOff : Cmd
  deriving DecidableEq, Repr

/-- A continue/stop decision with a reason, as in the SafetyMonitor of the spec. -/
inductive Decision where
  | Continue : Decision
  | Stop (reason : String) : Decision
  deriving DecidableEq, Repr

/-- What the program reports after the sweep: a maximum-power point, the
"No data collected" message of `rigol_iv_curve.py`, or an uncaught
exception (e.g. `np.argmax` of an empty sequence raising `ValueError`). -/
inductive Report where
  | mpp (v i p : ℚ) : Report
  | noData : Report
  | crash : Report
  deriving DecidableEq, Repr

/-! ## The setpoint sequences -/

/-- The numpy function `np.arange(start, stop, step)`: the arithmetic progression
`start, start+step, ...` with `⌈(stop - start) / step⌉` elements
(the documented numpy length; empty when that count is nonpositive).
`rigol_iv_curve.py` line 64 calls it as
`np.arange(V_START, V_STOP + V_STEP, V_STEP)`. -/
def arange (start stop step : ℚ) : List ℚ :=
  (List.range (⌈(stop - start) / step⌉).toNat).map fun k : ℕ => start + (k : ℚ) * step

/-- The voltage targets of the `rigol_iv_curve.py` sweep loop (line 64). -/
def ivVoltageTargets : List ℚ :=
  arange V_START (V_STOP + V_STEP) V_STEP

/-- The voltage-to-resistance setpoint mapping of `rigol_iv_curve.py`
lines 65-71: `resistance = v_target / ESTIMATED_CURRENT if v_target > 0
else MIN_RESISTANCE`, then clamped into
`[MIN_RESISTANCE, MAX_RESISTANCE]` by the two `if` branches. -/
def setpointResistance (v : ℚ) : ℚ :=
  let resistance := if v > 0 then v / ESTIMATED_CURRENT else MIN_RESISTANCE
  if resistance < MIN_RESISTANCE then MIN_RESISTANCE
  else if resistance > MAX_RESISTANCE then MAX_RESISTANCE
  else resistance

/-- The formula of the spec for the voltage-sweep setpoint, written from
the words of the spec for comparison with `setpointResistance`:
"setpoint(v) = `max(v / estimated_current, MIN_RESISTANCE)` for `v > 0`,
else `MIN_RESISTANCE`; result is clamped to
`[MIN_RESISTANCE, MAX_RESISTANCE]`". -/
def setpointResistanceSpec (v : ℚ) : ℚ :=
  min MAX_RESISTANCE (max MIN_RESISTANCE
    (if v > 0 then max (v / ESTIMATED_CURRENT) MIN_RESISTANCE else MIN_RESISTANCE))

/-! ## Safety checks -/

/-- The two safety checks of the `rigol_iv_curve.py` sweep loop
(lines 86-92), in source order: `if current > MAX_CURRENT: break`, then
`if power > MAX_POWER: break`, parameterised by the configured limits. -/
def safetyDecision (maxC maxP current power : ℚ) : Decision :=
  if current > maxC then .Stop "current-limit"
  else if power > maxP then .Stop "power-limit"
  else .Continue

/-- The per-sample stop check of the `rigol_optimize_power.py` sweep loop
(line 62): `if V < 0.05: break` ("Voltage near zero — stopping sweep"). -/
def nearZeroDecision (V : ℚ) : Decision :=
  if V < 1/20 then .Stop "near-zero-voltage" else .Continue

/-- The sweep-step decision as a function of elapsed time and a time
limit.  Neither script reads a clock or holds a `max_elapsed_time`
setting, so the decision is the `rigol_iv_curve.py` check on the
measurement alone; the two time arguments are unused by the code. -/
def safetyDecisionTimed (elapsed maxElapsed maxC maxP current power : ℚ) : Decision :=
  safetyDecision maxC maxP current power

/-! ## The `rigol_iv_curve.py` sweep -/

/-- The sweep loop of `rigol_iv_curve.py` (lines 64-96): for each voltage
target, write the clamped resistance setpoint, measure `(V, I)`, derive
`P = V * I`, break on the current/power checks, and only otherwise append
the sample.  The oracle decides whether the measurement of iteration `n`
succeeds, raises a communication error, or is interrupted. -/
def ivLoop (orc : Nat → StepResult) :
    List ℚ → Nat → List Cmd × List Measurement × ExitKind
  | [], _ => ([], [], .completed)
  | v :: rest, n =>
    let r := setpointResistance v
    match orc n with
    | .interrupt => ([Cmd.res r], [], .interrupted)
    | .commError => ([Cmd.res r], [], .failed)
    | .ok V I =>
      let P := V * I
      match safetyDecision MAX_CURRENT MAX_POWER I P with
      | .Stop reason => ([Cmd.res r], [], .stoppedByLimit reason)
      | .Continue =>
        let next := ivLoop orc rest (n + 1)
        (Cmd.res r :: next.1, ⟨V, I, P⟩ :: next.2.1, next.2.2)

/-- The full `rigol_iv_curve.py` sweep with its `try/except
KeyboardInterrupt/finally` structure (lines 62-103): however the loop
exits, the `finally` block issues `:INPUT OFF` before anything further
is reported. -/
def ivRun (orc : Nat → StepResult) : List Cmd × List Measurement × ExitKind :=
  let next := ivLoop orc ivVoltageTargets 0
  (next.1 ++ [Cmd.inputOff], next.2.1, next.2.2)

/-! ## The `rigol_optimize_power.py` sweep -/

/-- The sweep loop of `rigol_optimize_power.py` (lines 44-65):
`while R >= R_STOP`, write `:RES R`, measure, derive power, append the
sample (together with its setpoint), and only then break if the voltage
is near zero; otherwise advance `R += R_STEP`. -/
def optLoop (orc : Nat → StepResult) (R : ℚ) (n : Nat) :
    List Cmd × List (ℚ × Measurement) × ExitKind :=
  if h : R ≥ R_STOP then
    match orc n with
    | .interrupt => ([Cmd.res R], [], .interrupted)
    | .commError => ([Cmd.res R], [], .failed)
    | .ok V I =>
      let P := V * I
      match nearZeroDecision V with
      | .Stop reason => ([Cmd.res R], [(R, ⟨V, I, P⟩)], .stoppedByLimit reason)
      | .Continue =>
        let next := optLoop orc (R + R_STEP) (n + 1)
        (Cmd.res R :: next.1, (R, ⟨V, I, P⟩) :: next.2.1, next.2.2)
  else ([], [], .completed)
  termination_by (⌈(R - R_STOP) / (-R_STEP)⌉ + 1).toNat
  decreasing_by
    have h0 : (0:ℤ) ≤ ⌈(R - R_STOP) / (-R_STEP)⌉ := by
      apply Int.ceil_nonneg
      rw [ge_iff_le, ← sub_nonneg] at h
      have : (0:ℚ) < -R_STEP := by norm_num [R_STEP]
      positivity
    have hne : R_STEP ≠ 0 := by norm_num [R_STEP]
    have hone : R_STEP / (-R_STEP) = -1 := by rw [div_neg, div_self hne]
    have hstep : (R + R_STEP - R_STOP) / (-R_STEP) = (R - R_STOP) / (-R_STEP) - 1 := by
      rw [show R + R_STEP - R_STOP = (R - R_STOP) + R_STEP by ring, add_div, hone]
      ring
    have hceil : ⌈(R + R_STEP - R_STOP) / (-R_STEP)⌉ = ⌈(R - R_STOP) / (-R_STEP)⌉ - 1 := by
      rw [hstep, Int.ceil_sub_one]
    simp only [hceil]
    omega

/-- The full `rigol_optimize_power.py` sweep with its `try/except
KeyboardInterrupt/finally` structure (lines 44-72): however the loop
exits, the `finally` block issues `:INPUT OFF`. -/
def optRun (orc : Nat → StepResult) : List Cmd × List (ℚ × Measurement) × ExitKind :=
  let next := optLoop orc R_START 0
  (next.1 ++ [Cmd.inputOff], next.2.1, next.2.2)

/-! ## The generic resistance setpoint sequence

The pure setpoint sequence of the `rigol_optimize_power.py` loop:
`while R >= stop: yield R; R += step`, for a descending `step`,
abstracted over the loop bounds for the sequencer claims. -/

/-- The setpoint values visited by `while R >= stop: ...; R += step`
(`rigol_optimize_power.py` lines 44-65, setpoint advancement only),
for a negative `step`. -/
def resSeq (stop step : ℚ) (hstep : step < 0) (start : ℚ) : List ℚ :=
  if h : start ≥ stop then start :: resSeq stop step hstep (start + step)
  else []
  termination_by (⌈(start - stop) / (-step)⌉ + 1).toNat
  decreasing_by
    have h0 : (0:ℤ) ≤ ⌈(start - stop) / (-step)⌉ := by
      apply Int.ceil_nonneg
      rw [ge_iff_le, ← sub_nonneg] at h
      have hs : (0:ℚ) < -step := by linarith
      positivity
    have hne : step ≠ 0 := ne_of_lt hstep
    have hone : step / (-step) = -1 := by rw [div_neg, div_self hne]
    have hstep2 : (start + step - stop) / (-step) = (start - stop) / (-step) - 1 := by
      rw [show start + step - stop = (start - stop) + step by ring, add_div, hone]
      ring
    have hceil : ⌈(start + step - stop) / (-step)⌉ = ⌈(start - stop) / (-step)⌉ - 1 := by
      rw [hstep2, Int.ceil_sub_one]
    simp only [hceil]
    omega

/-! ## Setpoint application (one direct write per target) -/

/-- How both scripts apply a new setpoint: a single `inst.write(":RES ...")`
of the target value (`rigol_iv_curve.py` line 76, `rigol_optimize_power.py`
line 47) — the applied sequence for a change to `target` is just
`[target]`, with no intermediate values. -/
def rampApplied (currentVal target : ℚ) : List ℚ := [target]

/-- The deltas of an applied value sequence, starting from `fromVal`. -/
def deltas (fromVal : ℚ) : List ℚ → List ℚ
  | [] => []
  | x :: xs => (x - fromVal) :: deltas x xs

/-! ## MPP analysis (`np.argmax` and indexing) -/

/-- Helper for `npArgmax`: scan the tail keeping the first index of the
running maximum (replace only on a strictly greater value, as `np.argmax`
returns the first occurrence of the maximum). -/
def npArgmaxAux (best : ℚ) (bestIdx i : Nat) : List ℚ → Nat
  | [] => bestIdx
  | x :: xs => if x > best then npArgmaxAux x i (i + 1) xs
               else npArgmaxAux best bestIdx (i + 1) xs

/-- The numpy function `np.argmax`: the first index at which a list attains its maximum;
`none` on the empty list (where `np.argmax` raises `ValueError`). -/
def npArgmax : List ℚ → Option Nat
  | [] => none
  | x :: xs => some (npArgmaxAux x 0 1 xs)

/-- The MPP analysis shared by both scripts (`rigol_iv_curve.py` lines
111-114, `rigol_optimize_power.py` lines 79-80):
`max_idx = np.argmax(powers)`, then read `voltages[max_idx]`,
`currents[max_idx]`, `powers[max_idx]` — i.e. the components of the
record entry at `max_idx`. -/
def analyzeMPP (record : List Measurement) : Option (ℚ × ℚ × ℚ) :=
  match npArgmax (record.map Measurement.pow) with
  | none => none
  | some i =>
    match record.get? i with
    | none => none
    | some m => some (m.volt, m.curr, m.pow)

/-- Index `i` is the first index at which the list attains its maximum:
the value there dominates every element, and every earlier element is
strictly smaller. -/
def isFirstMax (l : List ℚ) (i : Nat) : Prop :=
  ∃ v, l.get? i = some v ∧ (∀ w ∈ l, w ≤ v) ∧
    ∀ j w, j < i → l.get? j = some w → w < v

/-- What `rigol_iv_curve.py` reports after the sweep (lines 106-116 and
the final `else`): the MPP when the record is nonempty (`if voltages:`),
otherwise the distinct "No data collected" message. -/
def ivReport (record : List Measurement) : Report :=
  match record with
  | [] => .noData
  | _ :: _ =>
    match analyzeMPP record with
    | some (v, i, p) => .mpp v i p
    | none => .crash

/-- What `rigol_optimize_power.py` reports after the sweep (lines 75-82):
`np.argmax(powers)` is run unguarded, so an empty record raises
`ValueError` (modelled as `.crash`) instead of a no-data report. -/
def optReport (record : List Measurement) : Report :=
  match analyzeMPP record with
  | some (v, i, p) => .mpp v i p
  | none => .crash

/-! ## Unfolding lemmas for the well-founded loops -/

theorem optLoop_done (orc : Nat → StepResult) (R : ℚ) (n : Nat) (h : ¬ R ≥ R_STOP) :
    optLoop orc R n = ([], [], .completed) := by
  conv_lhs => unfold optLoop
  rw [dif_neg h]

theorem optLoop_interrupt (orc : Nat → StepResult) (R : ℚ) (n : Nat)
    (h : R ≥ R_STOP) (ho : orc n = .interrupt) :
    optLoop orc R n = ([Cmd.res R], [], .interrupted) := by
  conv_lhs => unfold optLoop
  rw [dif_pos h, ho]

theorem optLoop_commError (orc : Nat → StepResult) (R : ℚ) (n : Nat)
    (h : R ≥ R_STOP) (ho : orc n = .commError) :
    optLoop orc R n = ([Cmd.res R], [], .failed) := by
  conv_lhs => unfold optLoop
  rw [dif_pos h, ho]

theorem nearZeroDecision_stop (V : ℚ) (hv : V < 1/20) :
    nearZeroDecision V = .Stop "near-zero-voltage" := by
  unfold nearZeroDecision
  rw [if_pos hv]

theorem nearZeroDecision_continue_eq (V : ℚ) (hv : ¬ V < 1/20) :
    nearZeroDecision V = .Continue := by
  unfold nearZeroDecision
  rw [if_neg hv]

theorem nearZeroDecision_continue (V : ℚ) (h : nearZeroDecision V = .Continue) :
    (1:ℚ)/20 ≤ V := by
  unfold nearZeroDecision at h
  split at h
  · exact absurd h (by simp)
  · rename_i hv
    exact le_of_not_lt hv

theorem optLoop_ok_stop (orc : Nat → StepResult) (R : ℚ) (n : Nat) (V I : ℚ)
    (h : R ≥ R_STOP) (ho : orc n = .ok V I) (hv : V < 1/20) :
    optLoop orc R n =
      ([Cmd.res R], [(R, ⟨V, I, V * I⟩)], .stoppedByLimit "near-zero-voltage") := by
  conv_lhs => unfold optLoop
  rw [dif_pos h, ho]
  dsimp only
  rw [nearZeroDecision_stop V hv]

theorem optLoop_ok_cont (orc : Nat → StepResult) (R : ℚ) (n : Nat) (V I : ℚ)
    (h : R ≥ R_STOP) (ho : orc n = .ok V I) (hv : ¬ V < 1/20) :
    optLoop orc R n =
      (Cmd.res R :: (optLoop orc (R + R_STEP) (n + 1)).1,
       (R, ⟨V, I, V * I⟩) :: (optLoop orc (R + R_STEP) (n + 1)).2.1,
       (optLoop orc (R + R_STEP) (n + 1)).2.2) := by
  conv_lhs => unfold optLoop
  rw [dif_pos h, ho]
  dsimp only
  rw [nearZeroDecision_continue_eq V hv]

theorem resSeq_pos (stop step : ℚ) (hstep : step < 0) (start : ℚ) (h : start ≥ stop) :
    resSeq stop step hstep start = start :: resSeq stop step hstep (start + step) := by
  conv_lhs => unfold resSeq
  rw [dif_pos h]

theorem resSeq_neg (stop step : ℚ) (hstep : step < 0) (start : ℚ) (h : ¬ start ≥ stop) :
    resSeq stop step hstep start = [] := by
  conv_lhs => unfold resSeq
  rw [dif_neg h]

/-! ## Properties of the safety checks -/

theorem safetyDecision_continue (maxC maxP c p : ℚ)
    (h : safetyDecision maxC maxP c p = .Continue) : c ≤ maxC ∧ p ≤ maxP := by
  unfold safetyDecision at h
  split at h
  · exact absurd h (by simp)
  · split at h
    · exact absurd h (by simp)
    · rename_i hc hp
      exact ⟨le_of_not_lt hc, le_of_not_lt hp⟩

theorem safetyDecision_not_time (maxC maxP c p : ℚ) :
    safetyDecision maxC maxP c p ≠ .Stop "time-limit" := by
  unfold safetyDecision
  split
  · simp
  · split
    · simp
    · simp

/-- C2: the limit checks run in source order and the first match wins:
whenever both the current check and the power check would trip, the
reported reason is `current-limit`, not `power-limit`. -/
theorem C2_current_limit_precedence (maxC maxP current power : ℚ)
    (hc : current > maxC) (hp : power > maxP) :
    safetyDecision maxC maxP current power = .Stop "current-limit" := by
  unfold safetyDecision
  rw [if_pos hc]

/-- Witness for C2 at scenario B of the spec: `max_current = 5`,
`current = 6`, `power = 10` with `max_power = 8` also exceeded. -/
theorem C2_current_limit_precedence_witness :
    (6:ℚ) > 5 ∧ (10:ℚ) > 8 ∧ safetyDecision 5 8 6 10 = .Stop "current-limit" :=
  ⟨by norm_num, by norm_num,
    C2_current_limit_precedence 5 8 6 10 (by norm_num) (by norm_num)⟩

/-- C3: on every exit path from the sweep — normal completion, stop on a
safety limit, operator interrupt, communication failure — the last
instrument command issued before the outcome is reported is `:INPUT OFF`
(the `finally` block of both scripts). -/
theorem C3_input_off_on_every_exit (orc : Nat → StepResult) :
    (ivRun orc).1.getLast? = some Cmd.inputOff
    ∧ (optRun orc).1.getLast? = some Cmd.inputOff := by
  constructor
  · show ((ivLoop orc ivVoltageTargets 0).1 ++ [Cmd.inputOff]).getLast? = some Cmd.inputOff
    rw [List.getLast?_concat]
  · show ((optLoop orc R_START 0).1 ++ [Cmd.inputOff]).getLast? = some Cmd.inputOff
    rw [List.getLast?_concat]

/-- C7 counterexample: neither script implements a time limit; with an
elapsed time of 3600 far beyond a configured limit of 60, an in-limits
measurement still yields `Continue`, not `Stop("time-limit")`. -/
theorem C7_counterexample :
    (3600:ℚ) > 60
    ∧ safetyDecisionTimed 3600 60 MAX_CURRENT MAX_POWER 1 1 ≠ Decision.Stop "time-limit"
    ∧ safetyDecisionTimed 3600 60 MAX_CURRENT MAX_POWER 1 1 = Decision.Continue := by
  refine ⟨by norm_num, ?_, ?_⟩
  · exact safetyDecision_not_time _ _ _ _
  · unfold safetyDecisionTimed safetyDecision
    rw [if_neg (by norm_num [MAX_CURRENT]), if_neg (by norm_num [MAX_POWER])]

/-- C7 amended: the stop decision of the sweep is independent of elapsed
time and of any time limit, and no check of either script ever reports
the reason `time-limit`. -/
theorem C7_no_time_limit (elapsed elapsed2 maxT maxT2 maxC maxP current power V : ℚ) :
    safetyDecisionTimed elapsed maxT maxC maxP current power
      = safetyDecisionTimed elapsed2 maxT2 maxC maxP current power
    ∧ safetyDecisionTimed elapsed maxT maxC maxP current power ≠ .Stop "time-limit"
    ∧ nearZeroDecision V ≠ .Stop "time-limit" := by
  refine ⟨rfl, safetyDecision_not_time _ _ _ _, ?_⟩
  unfold nearZeroDecision
  split
  · simp
  · simp

/-- C8 counterexample: setpoint changes are not ramped — for a change
from 0 to 10 the single applied delta is 10, which exceeds a maximum
step size of 1. -/
theorem C8_counterexample :
    rampApplied 0 10 = [10]
    ∧ ∃ d ∈ deltas 0 (rampApplied 0 10), (1:ℚ) < |d| := by
  refine ⟨rfl, 10 - 0, ?_, by norm_num⟩
  simp [rampApplied, deltas]

/-- C8 amended: each setpoint change is applied as one direct `:RES`
write of the target, so the applied sequence is `[target]`: its deltas
sum to `target - currentVal` and it ends exactly at `target`, but the
single delta `target - currentVal` is not bounded by any step size. -/
theorem C8_direct_write (currentVal target : ℚ) :
    rampApplied currentVal target = [target]
    ∧ (deltas currentVal (rampApplied currentVal target)).sum = target - currentVal
    ∧ (rampApplied currentVal target).getLast? = some target := by
  refine ⟨rfl, ?_, rfl⟩
  simp [rampApplied, deltas]

/-- C9: on an empty record (here: the sweep interrupted before the first
measurement completed), `rigol_optimize_power.py` still runs the MPP
analysis — `np.argmax` of the empty powers array raises `ValueError`
(`crash`) — instead of the distinct no-data report that
`rigol_iv_curve.py` produces. -/
theorem C9_empty_record_crash :
    (optRun (fun _ => StepResult.interrupt)).2.1 = []
    ∧ (optRun (fun _ => StepResult.interrupt)).2.2 = ExitKind.interrupted
    ∧ optReport (((optRun (fun _ => StepResult.interrupt)).2.1).map Prod.snd) = Report.crash
    ∧ ivReport [] = Report.noData
    ∧ Report.crash ≠ Report.noData := by
  have h : optLoop (fun _ => StepResult.interrupt) R_START 0 = ([Cmd.res R_START], [], .interrupted) :=
    optLoop_interrupt _ _ _ (by norm_num [R_START, R_STOP]) rfl
  refine ⟨?_, ?_, ?_, rfl, by simp⟩
  · show (optLoop (fun _ => StepResult.interrupt) R_START 0).2.1 = []
    rw [h]
  · show (optLoop (fun _ => StepResult.interrupt) R_START 0).2.2 = ExitKind.interrupted
    rw [h]
  · show optReport (((optLoop (fun _ => StepResult.interrupt) R_START 0).2.1).map Prod.snd) = Report.crash
    rw [h]
    rfl

/-! ## Record invariants of the two sweep loops -/

theorem ivLoop_record_within (orc : Nat → StepResult) :
    ∀ (vs : List ℚ) (n : Nat), ∀ m ∈ (ivLoop orc vs n).2.1,
      m.curr ≤ MAX_CURRENT ∧ m.pow ≤ MAX_POWER := by
  intro vs
  induction vs with
  | nil => intro n m hm; simp [ivLoop] at hm
  | cons v rest ih =>
    intro n m hm
    cases ho : orc n with
    | interrupt => simp [ivLoop, ho] at hm
    | commError => simp [ivLoop, ho] at hm
    | ok V I =>
      cases hd : safetyDecision MAX_CURRENT MAX_POWER I (V * I) with
      | Stop reason => simp [ivLoop, ho, hd] at hm
      | Continue =>
        simp only [ivLoop, ho, hd, List.mem_cons] at hm
        rcases hm with rfl | hm
        · have hb := safetyDecision_continue _ _ _ _ hd
          exact ⟨hb.1, hb.2⟩
        · exact ih (n + 1) m hm

theorem ivLoop_record_pow (orc : Nat → StepResult) :
    ∀ (vs : List ℚ) (n : Nat), ∀ m ∈ (ivLoop orc vs n).2.1,
      m.pow = m.volt * m.curr := by
  intro vs
  induction vs with
  | nil => intro n m hm; simp [ivLoop] at hm
  | cons v rest ih =>
    intro n m hm
    cases ho : orc n with
    | interrupt => simp [ivLoop, ho] at hm
    | commError => simp [ivLoop, ho] at hm
    | ok V I =>
      cases hd : safetyDecision MAX_CURRENT MAX_POWER I (V * I) with
      | Stop reason => simp [ivLoop, ho, hd] at hm
      | Continue =>
        simp only [ivLoop, ho, hd, List.mem_cons] at hm
        rcases hm with rfl | hm
        · rfl
        · exact ih (n + 1) m hm

theorem optLoop_record_dropLast (orc : Nat → StepResult) :
    ∀ (R : ℚ) (n : Nat), ∀ p ∈ ((optLoop orc R n).2.1).dropLast,
      (1:ℚ)/20 ≤ p.2.volt := by
  intro R n
  induction R, n using optLoop.induct orc with
  | case1 R n h ho =>
    rw [optLoop_interrupt orc R n h ho]
    simp
  | case2 R n h ho =>
    rw [optLoop_commError orc R n h ho]
    simp
  | case3 R n h V I ho reason hd =>
    have hv : V < 1/20 := by
      by_contra hc
      rw [nearZeroDecision_continue_eq V hc] at hd
      exact absurd hd (by simp)
    rw [optLoop_ok_stop orc R n V I h ho hv]
    simp
  | case4 R n h V I ho hd ih =>
    have hv : ¬ V < 1/20 := by
      intro hc
      rw [nearZeroDecision_stop V hc] at hd
      exact absurd hd (by simp)
    rw [optLoop_ok_cont orc R n V I h ho hv]
    cases htail : (optLoop orc (R + R_STEP) (n + 1)).2.1 with
    | nil =>
      simp
    | cons q t =>
      rw [htail] at ih
      intro p hp
      simp only [List.dropLast] at hp ih
      rcases List.mem_cons.mp hp with rfl | hp
      · exact nearZeroDecision_continue V hd
      · exact ih p hp
  | case5 R n h =>
    rw [optLoop_done orc R n h]
    simp

theorem optLoop_record_pow (orc : Nat → StepResult) :
    ∀ (R : ℚ) (n : Nat), ∀ p ∈ (optLoop orc R n).2.1,
      p.2.pow = p.2.volt * p.2.curr := by
  intro R n
  induction R, n using optLoop.induct orc with
  | case1 R n h ho =>
    rw [optLoop_interrupt orc R n h ho]
    simp
  | case2 R n h ho =>
    rw [optLoop_commError orc R n h ho]
    simp
  | case3 R n h V I ho reason hd =>
    have hv : V < 1/20 := by
      by_contra hc
      rw [nearZeroDecision_continue_eq V hc] at hd
      exact absurd hd (by simp)
    rw [optLoop_ok_stop orc R n V I h ho hv]
    intro p hp
    rcases List.mem_singleton.mp hp with rfl
    rfl
  | case4 R n h V I ho hd ih =>
    have hv : ¬ V < 1/20 := by
      intro hc
      rw [nearZeroDecision_stop V hc] at hd
      exact absurd hd (by simp)
    rw [optLoop_ok_cont orc R n V I h ho hv]
    intro p hp
    rcases List.mem_cons.mp hp with rfl | hp
    · rfl
    · exact ih p hp
  | case5 R n h =>
    rw [optLoop_done orc R n h]
    simp

theorem optLoop_trace (orc : Nat → StepResult) :
    ∀ (R : ℚ) (n : Nat), ∀ r, Cmd.res r ∈ (optLoop orc R n).1 →
      R_STOP ≤ r ∧ ∃ k : ℕ, r = R + (k : ℚ) * R_STEP := by
  intro R n
  induction R, n using optLoop.induct orc with
  | case1 R n h ho =>
    rw [optLoop_interrupt orc R n h ho]
    intro r hr
    obtain rfl : r = R := Cmd.res.inj (List.mem_singleton.mp hr)
    exact ⟨h, 0, by push_cast; ring⟩
  | case2 R n h ho =>
    rw [optLoop_commError orc R n h ho]
    intro r hr
    obtain rfl : r = R := Cmd.res.inj (List.mem_singleton.mp hr)
    exact ⟨h, 0, by push_cast; ring⟩
  | case3 R n h V I ho reason hd =>
    have hv : V < 1/20 := by
      by_contra hc
      rw [nearZeroDecision_continue_eq V hc] at hd
      exact absurd hd (by simp)
    rw [optLoop_ok_stop orc R n V I h ho hv]
    intro r hr
    obtain rfl : r = R := Cmd.res.inj (List.mem_singleton.mp hr)
    exact ⟨h, 0, by push_cast; ring⟩
  | case4 R n h V I ho hd ih =>
    have hv : ¬ V < 1/20 := by
      intro hc
      rw [nearZeroDecision_stop V hc] at hd
      exact absurd hd (by simp)
    rw [optLoop_ok_cont orc R n V I h ho hv]
    intro r hr
    rcases List.mem_cons.mp hr with hr2 | hr2
    · obtain rfl : r = R := Cmd.res.inj hr2
      exact ⟨h, 0, by push_cast; ring⟩
    · obtain ⟨h1, k, hk⟩ := ih r hr2
      refine ⟨h1, k + 1, ?_⟩
      rw [hk]
      push_cast
      ring
  | case5 R n h =>
    rw [optLoop_done orc R n h]
    simp

/-- C1 counterexample: in `rigol_optimize_power.py`, a first measurement
of `V = 0.01 < 0.05` trips the near-zero-voltage limit check, yet that
offending sample is appended to the record before the sweep stops — the
record of the stopped sweep contains a measurement violating the check. -/
theorem C1_counterexample :
    (optRun (fun _ => StepResult.ok (1/100) 1)).2.2 = ExitKind.stoppedByLimit "near-zero-voltage"
    ∧ ∃ m ∈ ((optRun (fun _ => StepResult.ok (1/100) 1)).2.1).map Prod.snd,
        nearZeroDecision m.volt = Decision.Stop "near-zero-voltage" := by
  have h : optLoop (fun _ => StepResult.ok (1/100) 1) R_START 0
      = ([Cmd.res R_START], [(R_START, ⟨1/100, 1, (1/100) * 1⟩)],
         .stoppedByLimit "near-zero-voltage") :=
    optLoop_ok_stop _ _ _ _ _ (by norm_num [R_START, R_STOP]) rfl (by norm_num)
  constructor
  · show (optLoop (fun _ => StepResult.ok (1/100) 1) R_START 0).2.2 = _
    rw [h]
  · refine ⟨⟨1/100, 1, (1/100) * 1⟩, ?_, nearZeroDecision_stop _ (by norm_num)⟩
    show _ ∈ ((optLoop (fun _ => StepResult.ok (1/100) 1) R_START 0).2.1).map Prod.snd
    rw [h]
    simp

/-- C1 amended: the append/exclude policy is not uniform. In
`rigol_iv_curve.py` the current/power checks run before the append, so
every recorded measurement satisfies both limits; in
`rigol_optimize_power.py` the near-zero-voltage check runs after the
append, so a violating measurement can appear in the record — but only
as its last element (every non-last recorded sample satisfies the
voltage threshold). -/
theorem C1_append_policy_differs :
    (∀ (orc : Nat → StepResult) (vs : List ℚ) (n : Nat),
      ∀ m ∈ (ivLoop orc vs n).2.1, m.curr ≤ MAX_CURRENT ∧ m.pow ≤ MAX_POWER)
    ∧ (∀ (orc : Nat → StepResult) (R : ℚ) (n : Nat),
      ∀ p ∈ ((optLoop orc R n).2.1).dropLast, (1:ℚ)/20 ≤ p.2.volt) :=
  ⟨ivLoop_record_within, optLoop_record_dropLast⟩

/-- Witness for C1 amended: a concrete recorded in-limits sample of the
voltage sweep, and a concrete non-last recorded sample of the resistance
sweep meeting the voltage threshold. -/
theorem C1_append_policy_differs_witness :
    ((⟨1, 1, 1 * 1⟩ : Measurement).curr ≤ MAX_CURRENT
      ∧ (⟨1, 1, 1 * 1⟩ : Measurement).pow ≤ MAX_POWER)
    ∧ (1:ℚ)/20 ≤ ((R_START, (⟨1, 1, 1 * 1⟩ : Measurement)) : ℚ × Measurement).2.volt := by
  constructor
  · refine C1_append_policy_differs.1 (fun _ => .ok 1 1) [1] 0 ⟨1, 1, 1 * 1⟩ ?_
    have hd : safetyDecision MAX_CURRENT MAX_POWER 1 ((1:ℚ) * 1) = Decision.Continue := by
      unfold safetyDecision
      rw [if_neg (by norm_num [MAX_CURRENT]), if_neg (by norm_num [MAX_POWER])]
    simp only [ivLoop, hd]
    exact List.mem_cons_self _ _
  · refine C1_append_policy_differs.2
      (fun n => if n = 0 then StepResult.ok 1 1 else StepResult.ok (1/100) 1) R_START 0
      (R_START, ⟨1, 1, 1 * 1⟩) ?_
    have h2 : optLoop (fun n => if n = 0 then StepResult.ok 1 1 else StepResult.ok (1/100) 1)
        (R_START + R_STEP) (0 + 1)
        = ([Cmd.res (R_START + R_STEP)],
           [(R_START + R_STEP, ⟨1/100, 1, (1/100) * 1⟩)],
           .stoppedByLimit "near-zero-voltage") :=
      optLoop_ok_stop _ _ _ _ _ (by norm_num [R_START, R_STEP, R_STOP]) rfl (by norm_num)
    have h1 : optLoop (fun n => if n = 0 then StepResult.ok 1 1 else StepResult.ok (1/100) 1)
        R_START 0
        = (Cmd.res R_START :: (optLoop _ (R_START + R_STEP) (0 + 1)).1,
           (R_START, ⟨1, 1, 1 * 1⟩) :: (optLoop _ (R_START + R_STEP) (0 + 1)).2.1,
           (optLoop _ (R_START + R_STEP) (0 + 1)).2.2) :=
      optLoop_ok_cont _ _ _ _ _ (by norm_num [R_START, R_STOP]) rfl (by norm_num)
    rw [h1, h2]
    simp [List.dropLast]

/-! ## The setpoint bounds -/

theorem setpointResistance_eq_spec (v : ℚ) :
    setpointResistance v = setpointResistanceSpec v := by
  have hMM : MIN_RESISTANCE ≤ MAX_RESISTANCE := by
    norm_num [MIN_RESISTANCE, MAX_RESISTANCE]
  unfold setpointResistance setpointResistanceSpec
  by_cases hv : v > 0
  · simp only [if_pos hv]
    split_ifs with h1 h2
    · rw [max_eq_right h1.le, max_self, min_eq_right hMM]
    · have hge : MIN_RESISTANCE ≤ v / ESTIMATED_CURRENT := not_lt.mp h1
      rw [max_eq_left hge, max_eq_right hge, min_eq_left h2.le]
    · have hge : MIN_RESISTANCE ≤ v / ESTIMATED_CURRENT := not_lt.mp h1
      have hle : v / ESTIMATED_CURRENT ≤ MAX_RESISTANCE := not_lt.mp h2
      rw [max_eq_left hge, max_eq_right hge, min_eq_right hle]
  · simp only [if_neg hv]
    rw [if_neg (lt_irrefl MIN_RESISTANCE), if_neg (not_lt.mpr hMM), max_self,
      min_eq_right hMM]

/-- C4: every emitted setpoint lies within
`[MIN_RESISTANCE, MAX_RESISTANCE]` in both sweep modes.  Voltage-sweep
mode: `setpointResistance` equals the formula of the spec and is within
bounds for every voltage.  Resistance-sweep mode: every `:RES r` the
resistance sweep writes is within the same bounds, and equals its own
clamp to those bounds. -/
theorem C4_setpoints_within_bounds :
    (∀ v : ℚ, setpointResistance v = setpointResistanceSpec v
      ∧ MIN_RESISTANCE ≤ setpointResistance v ∧ setpointResistance v ≤ MAX_RESISTANCE)
    ∧ (∀ (orc : Nat → StepResult) (r : ℚ), Cmd.res r ∈ (optRun orc).1 →
      MIN_RESISTANCE ≤ r ∧ r ≤ MAX_RESISTANCE
        ∧ min MAX_RESISTANCE (max MIN_RESISTANCE r) = r) := by
  constructor
  · intro v
    have hMM : MIN_RESISTANCE ≤ MAX_RESISTANCE := by
      norm_num [MIN_RESISTANCE, MAX_RESISTANCE]
    refine ⟨setpointResistance_eq_spec v, ?_, ?_⟩
    · rw [setpointResistance_eq_spec v]
      exact le_min hMM (le_max_left _ _)
    · rw [setpointResistance_eq_spec v]
      exact min_le_left _ _
  · intro orc r hmem
    have hmem2 : Cmd.res r ∈ (optLoop orc R_START 0).1 := by
      have hmem3 : Cmd.res r ∈ (optLoop orc R_START 0).1 ++ [Cmd.inputOff] := hmem
      rcases List.mem_append.mp hmem3 with h | h
      · exact h
      · simp at h
    obtain ⟨hstop, k, hk⟩ := optLoop_trace orc R_START 0 r hmem2
    have hknn : (0:ℚ) ≤ (k:ℚ) := Nat.cast_nonneg k
    have h100 : (100:ℚ) ≤ r := by
      rcases le_or_lt 150 k with hk150 | hk150
      · exfalso
        have hc : (150:ℚ) ≤ (k:ℚ) := by exact_mod_cast hk150
        have hr0 : r ≤ 0 := by
          rw [hk]
          norm_num [R_START, R_STEP]
          linarith
        rw [R_STOP] at hstop
        linarith
      · have hc : (k:ℚ) ≤ 149 := by exact_mod_cast Nat.lt_succ_iff.mp hk150
        rw [hk]
        norm_num [R_START, R_STEP]
        linarith
    have hmax : r ≤ MAX_RESISTANCE := by
      rw [hk]
      norm_num [R_START, R_STEP, MAX_RESISTANCE]
    have hmin : MIN_RESISTANCE ≤ r := by
      rw [MIN_RESISTANCE]
      linarith
    exact ⟨hmin, hmax, by rw [max_eq_right hmin, min_eq_right hmax]⟩

/-- Witness for C4: the voltage setpoint at `v = 1`, and the first
written resistance setpoint `R_START` of the resistance sweep. -/
theorem C4_setpoints_within_bounds_witness :
    (setpointResistance 1 = setpointResistanceSpec 1
      ∧ MIN_RESISTANCE ≤ setpointResistance 1 ∧ setpointResistance 1 ≤ MAX_RESISTANCE)
    ∧ (MIN_RESISTANCE ≤ R_START ∧ R_START ≤ MAX_RESISTANCE
      ∧ min MAX_RESISTANCE (max MIN_RESISTANCE R_START) = R_START) := by
  refine ⟨C4_setpoints_within_bounds.1 1,
    C4_setpoints_within_bounds.2 (fun _ => StepResult.interrupt) R_START ?_⟩
  have h : optLoop (fun _ => StepResult.interrupt) R_START 0
      = ([Cmd.res R_START], [], .interrupted) :=
    optLoop_interrupt _ _ _ (by norm_num [R_START, R_STOP]) rfl
  show Cmd.res R_START ∈ (optLoop (fun _ => StepResult.interrupt) R_START 0).1 ++ [Cmd.inputOff]
  rw [h]
  simp

/-! ## The first-maximum property of `npArgmax` -/

theorem npArgmaxAux_spec :
    ∀ (xs pre : List ℚ) (best : ℚ) (bestIdx : Nat),
      pre.get? bestIdx = some best →
      (∀ w ∈ pre, w ≤ best) →
      (∀ j w, j < bestIdx → pre.get? j = some w → w < best) →
      isFirstMax (pre ++ xs) (npArgmaxAux best bestIdx pre.length xs) := by
  intro xs
  induction xs with
  | nil =>
    intro pre best bestIdx hget hle hstrict
    simp only [npArgmaxAux, List.append_nil]
    exact ⟨best, hget, hle, hstrict⟩
  | cons x xs ih =>
    intro pre best bestIdx hget hle hstrict
    have hlen : bestIdx < pre.length := (List.get?_eq_some.mp hget).1
    simp only [npArgmaxAux]
    by_cases hgt : x > best
    · rw [if_pos hgt]
      have h2 := ih (pre ++ [x]) x pre.length
        (List.get?_concat_length pre x)
        (by
          intro w hw
          rcases List.mem_append.mp hw with hw | hw
          · exact le_trans (hle w hw) hgt.le
          · rw [List.mem_singleton.mp hw])
        (by
          intro j w hj hjw
          rw [List.get?_append hj] at hjw
          exact lt_of_le_of_lt (hle w (List.get?_mem hjw)) hgt)
      rw [List.length_append, List.length_singleton, List.append_assoc,
        List.singleton_append] at h2
      exact h2
    · rw [if_neg hgt]
      have h2 := ih (pre ++ [x]) best bestIdx
        (by rw [List.get?_append hlen]; exact hget)
        (by
          intro w hw
          rcases List.mem_append.mp hw with hw | hw
          · exact hle w hw
          · rw [List.mem_singleton.mp hw]; exact not_lt.mp hgt)
        (by
          intro j w hj hjw
          rw [List.get?_append (lt_trans hj hlen)] at hjw
          exact hstrict j w hj hjw)
      rw [List.length_append, List.length_singleton, List.append_assoc,
        List.singleton_append] at h2
      exact h2

theorem npArgmax_first_max (l : List ℚ) (i : Nat) (h : npArgmax l = some i) :
    isFirstMax l i := by
  cases l with
  | nil => exact absurd h (by simp [npArgmax])
  | cons x xs =>
    have hx : i = npArgmaxAux x 0 1 xs := by simpa [npArgmax] using h.symm
    rw [hx]
    have h2 := npArgmaxAux_spec xs [x] x 0 (by simp)
      (by intro w hw; rw [List.mem_singleton.mp hw])
      (by intro j w hj hjw; exact absurd hj (Nat.not_lt_zero j))
    simpa using h2

theorem analyzeMPP_spec (record : List Measurement) (hne : record ≠ []) :
    ∃ i m, record.get? i = some m
      ∧ isFirstMax (record.map Measurement.pow) i
      ∧ analyzeMPP record = some (m.volt, m.curr, m.pow) := by
  obtain ⟨x, xs, rfl⟩ := List.exists_cons_of_ne_nil hne
  have hi : npArgmax ((x :: xs).map Measurement.pow)
      = some (npArgmaxAux x.pow 0 1 (xs.map Measurement.pow)) := rfl
  obtain ⟨v, hv, hle, hstrict⟩ := npArgmax_first_max _ _ hi
  have hjlen : npArgmaxAux x.pow 0 1 (xs.map Measurement.pow) < (x :: xs).length := by
    have := (List.get?_eq_some.mp hv).1
    simpa using this
  obtain ⟨m, hm⟩ : ∃ m, (x :: xs).get? (npArgmaxAux x.pow 0 1 (xs.map Measurement.pow))
      = some m := ⟨_, List.get?_eq_get hjlen⟩
  refine ⟨_, m, hm, npArgmax_first_max _ _ hi, ?_⟩
  unfold analyzeMPP
  rw [hi]
  dsimp only
  rw [hm]

/-- C6: MPP selection replaces the running best only on a strictly
greater power (`np.argmax` returns the first index of the maximum), so
equal powers retain the earlier observation; in particular observing
`(V=1, I=5, P=5)` then `(V=2, I=5/2, P=5)` reports the first. -/
theorem C6_mpp_tie_break :
    (∀ (l : List ℚ) (i : Nat), npArgmax l = some i → isFirstMax l i)
    ∧ analyzeMPP [⟨1, 5, 5⟩, ⟨2, 5/2, 5⟩] = some (1, 5, 5) := by
  refine ⟨npArgmax_first_max, ?_⟩
  have h : ((5:ℚ) > 5) = False := by simp
  simp [analyzeMPP, npArgmax, npArgmaxAux, h]

/-- Witness for C6: `npArgmax` on the tied list `[5, 5]` selects index 0,
which is a first maximum. -/
theorem C6_mpp_tie_break_witness : isFirstMax [5, 5] 0 := by
  refine C6_mpp_tie_break.1 [5, 5] 0 ?_
  have h : ((5:ℚ) > 5) = False := by simp
  simp [npArgmax, npArgmaxAux, h]

/-- C10: whenever the record is nonempty, the reported MPP triple is the
entry of the record at the first power-maximal index, so it is an
element of the record and satisfies `p_mpp = v_mpp * i_mpp` — in both
scripts. -/
theorem C10_mpp_from_record (orc : Nat → StepResult) :
    ((ivRun orc).2.1 ≠ [] →
      ∃ i m, ((ivRun orc).2.1).get? i = some m
        ∧ isFirstMax (((ivRun orc).2.1).map Measurement.pow) i
        ∧ analyzeMPP (ivRun orc).2.1 = some (m.volt, m.curr, m.pow)
        ∧ m.pow = m.volt * m.curr)
    ∧ ((((optRun orc).2.1).map Prod.snd) ≠ [] →
      ∃ i m, ((((optRun orc).2.1).map Prod.snd)).get? i = some m
        ∧ isFirstMax ((((optRun orc).2.1).map Prod.snd).map Measurement.pow) i
        ∧ analyzeMPP (((optRun orc).2.1).map Prod.snd) = some (m.volt, m.curr, m.pow)
        ∧ m.pow = m.volt * m.curr) := by
  constructor
  · intro hne
    obtain ⟨i, m, hm, hfm, ha⟩ := analyzeMPP_spec _ hne
    refine ⟨i, m, hm, hfm, ha, ?_⟩
    have hmem : m ∈ (ivRun orc).2.1 := List.get?_mem hm
    exact ivLoop_record_pow orc ivVoltageTargets 0 m hmem
  · intro hne
    obtain ⟨i, m, hm, hfm, ha⟩ := analyzeMPP_spec _ hne
    refine ⟨i, m, hm, hfm, ha, ?_⟩
    have hmem : m ∈ ((optRun orc).2.1).map Prod.snd := List.get?_mem hm
    obtain ⟨p, hp, rfl⟩ := List.mem_map.mp hmem
    exact optLoop_record_pow orc R_START 0 p hp

/-- Witness for C10: the all-ok oracle measuring `V = 1, I = 1`
produces nonempty records in both sweeps. -/
theorem C10_mpp_from_record_witness :
    (∃ i m, ((ivRun (fun _ => StepResult.ok 1 1)).2.1).get? i = some m
      ∧ isFirstMax (((ivRun (fun _ => StepResult.ok 1 1)).2.1).map Measurement.pow) i
      ∧ analyzeMPP (ivRun (fun _ => StepResult.ok 1 1)).2.1 = some (m.volt, m.curr, m.pow)
      ∧ m.pow = m.volt * m.curr)
    ∧ (∃ i m, ((((optRun (fun _ => StepResult.ok 1 1)).2.1).map Prod.snd)).get? i = some m
      ∧ isFirstMax ((((optRun (fun _ => StepResult.ok 1 1)).2.1).map Prod.snd).map Measurement.pow) i
      ∧ analyzeMPP (((optRun (fun _ => StepResult.ok 1 1)).2.1).map Prod.snd)
          = some (m.volt, m.curr, m.pow)
      ∧ m.pow = m.volt * m.curr) := by
  constructor
  · refine (C10_mpp_from_record (fun _ => StepResult.ok 1 1)).1 ?_
    have hlen : ivVoltageTargets.length = 101 := by
      simp only [ivVoltageTargets, arange, List.length_map, List.length_range]
      rw [show ((V_STOP + V_STEP - V_START) / V_STEP : ℚ) = 101 by
          norm_num [V_STOP, V_STEP, V_START],
        show ⌈(101:ℚ)⌉ = 101 by norm_num]
      rfl
    obtain ⟨v, rest, hvt⟩ := List.exists_cons_of_ne_nil
      (List.ne_nil_of_length_pos (by rw [hlen]; norm_num))
    have hd : safetyDecision MAX_CURRENT MAX_POWER 1 ((1:ℚ) * 1) = Decision.Continue := by
      unfold safetyDecision
      rw [if_neg (by norm_num [MAX_CURRENT]), if_neg (by norm_num [MAX_POWER])]
    show (ivLoop (fun _ => StepResult.ok 1 1) ivVoltageTargets 0).2.1 ≠ []
    rw [hvt]
    simp only [ivLoop, hd]
    exact List.cons_ne_nil _ _
  · refine (C10_mpp_from_record (fun _ => StepResult.ok 1 1)).2 ?_
    have h1 : optLoop (fun _ => StepResult.ok 1 1) R_START 0
        = (Cmd.res R_START :: (optLoop _ (R_START + R_STEP) (0 + 1)).1,
           (R_START, ⟨1, 1, 1 * 1⟩) :: (optLoop _ (R_START + R_STEP) (0 + 1)).2.1,
           (optLoop _ (R_START + R_STEP) (0 + 1)).2.2) :=
      optLoop_ok_cont _ _ _ _ _ (by norm_num [R_START, R_STOP]) rfl (by norm_num)
    show ((optLoop (fun _ => StepResult.ok 1 1) R_START 0).2.1).map Prod.snd ≠ []
    rw [h1]
    simp

/-! ## Head and last element of the setpoint sequences -/

theorem arange_head_last (start stop step : ℚ) (hstep : 0 < step) (hlt : start < stop) :
    arange start (stop + step) step ≠ []
    ∧ (arange start (stop + step) step).head? = some start
    ∧ ∃ l, (arange start (stop + step) step).getLast? = some l
        ∧ stop ≤ l ∧ l < stop + step := by
  have hx1 : (1:ℚ) < (stop + step - start) / step := by
    rw [lt_div_iff hstep]
    linarith
  have hN1 : (1:ℤ) < ⌈(stop + step - start) / step⌉ := by
    rw [Int.lt_ceil]
    exact_mod_cast hx1
  obtain ⟨m, hm⟩ : ∃ m : ℕ, (⌈(stop + step - start) / step⌉).toNat = m + 1 :=
    ⟨(⌈(stop + step - start) / step⌉).toNat - 1, by omega⟩
  have hmZ : ((m:ℤ)) = ⌈(stop + step - start) / step⌉ - 1 := by omega
  have hmq : ((m:ℚ)) = ((⌈(stop + step - start) / step⌉ : ℤ) : ℚ) - 1 := by
    exact_mod_cast hmZ
  have harange : arange start (stop + step) step
      = (List.range (m + 1)).map (fun k : ℕ => start + (k:ℚ) * step) := by
    unfold arange
    rw [hm]
  have hub : stop + step - start ≤ ((⌈(stop + step - start) / step⌉ : ℤ) : ℚ) * step := by
    have h := Int.le_ceil ((stop + step - start) / step)
    rw [div_le_iff hstep] at h
    exact h
  have hlb : (((⌈(stop + step - start) / step⌉ : ℤ) : ℚ) - 1) * step
      < stop + step - start := by
    have h := Int.ceil_lt_add_one ((stop + step - start) / step)
    have h2 : ((⌈(stop + step - start) / step⌉ : ℤ) : ℚ) - 1
        < (stop + step - start) / step := by linarith
    calc (((⌈(stop + step - start) / step⌉ : ℤ) : ℚ) - 1) * step
        < ((stop + step - start) / step) * step := mul_lt_mul_of_pos_right h2 hstep
      _ = stop + step - start := div_mul_cancel₀ _ (ne_of_gt hstep)
  refine ⟨?_, ?_, start + (m:ℚ) * step, ?_, ?_, ?_⟩
  · rw [harange]
    apply List.ne_nil_of_length_pos
    simp
  · rw [harange, List.range_succ_eq_map]
    simp
  · rw [harange, List.range_succ, List.map_append, List.map_singleton,
      List.getLast?_concat]
  · rw [hmq]
    nlinarith [hub]
  · rw [hmq]
    nlinarith [hlb]

theorem resSeq_spec (stop step : ℚ) (hstep : step < 0) :
    ∀ start, stop ≤ start →
      resSeq stop step hstep start ≠ []
      ∧ (resSeq stop step hstep start).head? = some start
      ∧ ∃ l, (resSeq stop step hstep start).getLast? = some l
          ∧ stop ≤ l ∧ l < stop - step := by
  intro start
  induction start using resSeq.induct stop step hstep with
  | case1 x hx ih =>
    intro _
    rw [resSeq_pos stop step hstep x hx]
    refine ⟨by simp, by simp, ?_⟩
    by_cases hc : stop ≤ x + step
    · obtain ⟨hne, hhead, l, hl, hb1, hb2⟩ := ih hc
      refine ⟨l, ?_, hb1, hb2⟩
      obtain ⟨y, t, hyt⟩ := List.exists_cons_of_ne_nil hne
      rw [hyt, List.getLast?_cons_cons, ← hyt]
      exact hl
    · have hnil : resSeq stop step hstep (x + step) = [] :=
        resSeq_neg _ _ _ _ hc
      rw [hnil]
      have hxs : x + step < stop := not_le.mp hc
      exact ⟨x, by simp, hx, by linarith⟩
  | case2 x hx =>
    intro hcon
    exact absurd hcon hx

/-- C5: for matching signs of step and (stop - start), both setpoint
sequencers yield a nonempty sequence starting exactly at `start` whose
last element lies within one step of `stop`; and the voltage sequencer
with `start=0, stop=1, step=1/2` (called as
`np.arange(start, stop + step, step)`) yields exactly `[0, 1/2, 1]`. -/
theorem C5_sequencer_bounds :
    (∀ start stop step : ℚ, 0 < step → start < stop →
      arange start (stop + step) step ≠ []
      ∧ (arange start (stop + step) step).head? = some start
      ∧ ∃ l, (arange start (stop + step) step).getLast? = some l
          ∧ stop ≤ l ∧ l < stop + step)
    ∧ (∀ (stop step : ℚ) (hstep : step < 0) (start : ℚ), stop < start →
      resSeq stop step hstep start ≠ []
      ∧ (resSeq stop step hstep start).head? = some start
      ∧ ∃ l, (resSeq stop step hstep start).getLast? = some l
          ∧ stop ≤ l ∧ l < stop - step)
    ∧ arange 0 (1 + 1/2) (1/2) = [0, 1/2, 1] := by
  refine ⟨fun start stop step h1 h2 => arange_head_last start stop step h1 h2,
    fun stop step hstep start h => resSeq_spec stop step hstep start h.le, ?_⟩
  unfold arange
  rw [show ((1 + 1/2 - 0 : ℚ)) / (1/2) = 3 by norm_num,
    show ⌈(3:ℚ)⌉ = 3 by norm_num,
    show (3:ℤ).toNat = 3 from rfl]
  norm_num [List.range_succ]

/-- Witness for C5: the scenario-A sequence is nonempty, and the
resistance sequencer from 1 down to 0 with step -1 starts at 1. -/
theorem C5_sequencer_bounds_witness :
    arange 0 (1 + 1/2) (1/2) ≠ []
    ∧ (resSeq 0 (-1) (by norm_num) 1).head? = some 1 :=
  ⟨(C5_sequencer_bounds.1 0 1 (1/2) (by norm_num) (by norm_num)).1,
    (C5_sequencer_bounds.2.1 0 (-1) (by norm_num) 1 (by norm_num)).2.1⟩
